import Mathlib

/-!
Verification of the secure-session core of this repository (frontend crypto
modules: `keyExchange.js`, `encryption.js`, `replayProtection.js`,
`keyManagement.js`).

Shallow embedding conventions:
* JavaScript numbers used as timestamps and sequence numbers are embedded as
  `Int` (all arithmetic in the source stays far below 2^53, so integer
  semantics are exact).
* Byte arrays (`Uint8Array` / `ArrayBuffer`) are `List Nat` with every entry
  `< 256` where it matters.
* `window.btoa` / `window.atob` (composed with the repository's
  `arrayBufferToBase64` / `base64ToArrayBuffer` helpers) are embedded as a
  concrete base64 codec over byte lists, proved to round-trip.
* `TextEncoder` / `TextDecoder` are embedded as a concrete UTF-8 codec over
  the code points of a Lean `String`, proved to round-trip.
* WebCrypto primitives (`subtle.encrypt/decrypt` for AES-GCM,
  `subtle.deriveBits` for ECDH, `subtle.sign/verify` for ECDSA,
  `subtle.deriveKey` for PBKDF2) are external to the repository; they are
  embedded as ideal functional models: AES-GCM as an authenticated sealing
  that recovers the plaintext exactly under the matching key and IV, ECDH as
  modular exponentiation in a commutative group, ECDSA as an ideal
  existentially-unforgeable signature binding a payload to the signer's
  public key, and PBKDF2 as an injective deterministic function of its
  inputs. All control flow, field layouts, orderings and checks around these
  primitives are translated directly from the repository source.
* Randomness (`crypto.getRandomValues`, fresh keypairs, `Date.now()`) is
  supplied to each operation as explicit arguments, the standard
  state-passing embedding of effectful reads.
* IndexedDB object stores are embedded as association lists keyed the same
  way the source keys its records; a store operation that can fail
  (`request.onerror`) is driven by explicit failure flags so that the
  source's error paths are part of the model.
-/

namespace SecureChat

/-! ## Base64 codec (model of `window.btoa` / `window.atob` composed with the
repository's `arrayBufferToBase64` / `base64ToArrayBuffer` helpers) -/

/-- Standard base64 alphabet, in index order. -/
def b64Alphabet : List Char :=
  "ABCDEFGHIJKLMNOPQRSTUVWXYZabcdefghijklmnopqrstuvwxyz0123456789+/".data

/-- Character for a sextet value. -/
def b64chr (i : Nat) : Char := b64Alphabet.getD i 'A'

/-- Sextet value of a base64 character (`none` for `'='` and any
non-alphabet character). -/
def b64val (c : Char) : Option Nat := b64Alphabet.findIdx? (fun x => x == c)

/-- Encode a byte list into base64 characters, three bytes to four
characters, padding the final group with `'='`. -/
def b64EncodeList : List Nat → List Char
  | [] => []
  | [a] => [b64chr (a / 4), b64chr (a % 4 * 16), '=', '=']
  | [a, b] => [b64chr (a / 4), b64chr (a % 4 * 16 + b / 16), b64chr (b % 16 * 4), '=']
  | a :: b :: c :: rest =>
      b64chr (a / 4) :: b64chr (a % 4 * 16 + b / 16) ::
        b64chr (b % 16 * 4 + c / 64) :: b64chr (c % 64) :: b64EncodeList rest

/-- Decode base64 characters back to bytes; `none` on malformed input
(mirrors `atob` throwing, which the repository helpers propagate). -/
def b64DecodeList : List Char → Option (List Nat)
  | [] => some []
  | c1 :: c2 :: c3 :: c4 :: rest =>
      match b64val c1, b64val c2 with
      | some v1, some v2 =>
        if c3 = '=' then
          if c4 = '=' ∧ rest = [] then some [v1 * 4 + v2 / 16] else none
        else
          match b64val c3 with
          | some v3 =>
            if c4 = '=' then
              if rest = [] then some [v1 * 4 + v2 / 16, v2 % 16 * 16 + v3 / 4] else none
            else
              match b64val c4 with
              | some v4 =>
                match b64DecodeList rest with
                | some tl =>
                    some ((v1 * 4 + v2 / 16) :: (v2 % 16 * 16 + v3 / 4) ::
                      (v3 % 4 * 64 + v4) :: tl)
                | none => none
              | none => none
          | none => none
      | _, _ => none
  | _ => none

/-- Base64-encode bytes to a string (`arrayBufferToBase64`). -/
def b64Encode (bs : List Nat) : String := String.mk (b64EncodeList bs)

/-- Base64-decode a string to bytes (`base64ToArrayBuffer`); `none` on
malformed input. -/
def b64Decode (s : String) : Option (List Nat) := b64DecodeList s.data

theorem b64val_b64chr {i : Nat} (h : i < 64) : b64val (b64chr i) = some i := by
  interval_cases i <;> rfl

theorem b64chr_ne_pad {i : Nat} (h : i < 64) : b64chr i ≠ '=' := by
  interval_cases i <;> decide

/-- The base64 codec round-trips on byte lists. -/
theorem b64DecodeList_b64EncodeList :
    ∀ (bs : List Nat), (∀ b ∈ bs, b < 256) →
      b64DecodeList (b64EncodeList bs) = some bs
  | [], _ => rfl
  | [a], h => by
    have ha : a < 256 := h a (by simp)
    have h1 := b64val_b64chr (show a / 4 < 64 by omega)
    have h2 := b64val_b64chr (show a % 4 * 16 < 64 by omega)
    simp [b64EncodeList, b64DecodeList, h1, h2]
    omega
  | [a, b], h => by
    have ha : a < 256 := h a (by simp)
    have hb : b < 256 := h b (by simp)
    have h1 := b64val_b64chr (show a / 4 < 64 by omega)
    have h2 := b64val_b64chr (show a % 4 * 16 + b / 16 < 64 by omega)
    have h3 := b64val_b64chr (show b % 16 * 4 < 64 by omega)
    have hne := b64chr_ne_pad (show b % 16 * 4 < 64 by omega)
    simp [b64EncodeList, b64DecodeList, h1, h2, h3, hne]
    omega
  | a :: b :: c :: rest, h => by
    have ha : a < 256 := h a (by simp)
    have hb : b < 256 := h b (by simp)
    have hc : c < 256 := h c (by simp)
    have ih : b64DecodeList (b64EncodeList rest) = some rest :=
      b64DecodeList_b64EncodeList rest (fun x hx => h x (by simp [hx]))
    have h1 := b64val_b64chr (show a / 4 < 64 by omega)
    have h2 := b64val_b64chr (show a % 4 * 16 + b / 16 < 64 by omega)
    have h3 := b64val_b64chr (show b % 16 * 4 + c / 64 < 64 by omega)
    have h4 := b64val_b64chr (show c % 64 < 64 by omega)
    have hne3 := b64chr_ne_pad (show b % 16 * 4 + c / 64 < 64 by omega)
    have hne4 := b64chr_ne_pad (show c % 64 < 64 by omega)
    simp [b64EncodeList, b64DecodeList, h1, h2, h3, h4, hne3, hne4, ih]
    omega

/-- The base64 codec round-trips at the `String` level. -/
theorem b64Decode_b64Encode (bs : List Nat) (h : ∀ b ∈ bs, b < 256) :
    b64Decode (b64Encode bs) = some bs := by
  simpa [b64Decode, b64Encode] using b64DecodeList_b64EncodeList bs h

/-- Every base64 character code is below 128 (the alphabet and `'='` are
ASCII). -/
theorem b64chr_toNat_lt (i : Nat) : (b64chr i).toNat < 128 := by
  by_cases h : i < 64
  · interval_cases i <;> decide
  · rw [b64chr, List.getD_eq_default _ _ (by rw [show b64Alphabet.length = 64 from rfl]; omega)]
    decide

/-- Every base64 character code is below 128. -/
theorem b64EncodeList_toNat_lt (bs : List Nat) :
    ∀ c ∈ b64EncodeList bs, c.toNat < 128 := by
  induction bs using b64EncodeList.induct with
  | case1 => simp [b64EncodeList]
  | case2 a =>
    intro c hc
    simp only [b64EncodeList, List.mem_cons, List.not_mem_nil, or_false] at hc
    rcases hc with h | h | h | h <;> subst h <;>
      first | exact b64chr_toNat_lt _ | decide
  | case3 a b =>
    intro c hc
    simp only [b64EncodeList, List.mem_cons, List.not_mem_nil, or_false] at hc
    rcases hc with h | h | h | h <;> subst h <;>
      first | exact b64chr_toNat_lt _ | decide
  | case4 a b c rest ih =>
    intro x hx
    simp only [b64EncodeList, List.mem_cons] at hx
    rcases hx with h | h | h | h | h
    · subst h; exact b64chr_toNat_lt _
    · subst h; exact b64chr_toNat_lt _
    · subst h; exact b64chr_toNat_lt _
    · subst h; exact b64chr_toNat_lt _
    · exact ih x h

/-! ## UTF-8 codec (model of `TextEncoder` / `TextDecoder`) -/

/-- UTF-8 encoding of one Unicode code point (the byte layout `TextEncoder`
emits). -/
def utf8EncodeNat (n : Nat) : List Nat :=
  if n < 128 then [n]
  else if n < 2048 then [192 + n / 64, 128 + n % 64]
  else if n < 65536 then [224 + n / 4096, 128 + n / 64 % 64, 128 + n % 64]
  else [240 + n / 262144, 128 + n / 4096 % 64, 128 + n / 64 % 64, 128 + n % 64]

/-- UTF-8 bytes of a string (`new TextEncoder().encode(s)`). -/
def textEncode (s : String) : List Nat :=
  (s.data.map (fun c => utf8EncodeNat c.toNat)).flatten

/-- Decode the leading UTF-8 sequence of a byte list into a code point and
the remaining bytes. -/
def utf8DecodeOne : List Nat → Option (Nat × List Nat)
  | [] => none
  | b :: rest =>
    if b < 128 then some (b, rest)
    else if b < 192 then none
    else if b < 224 then
      match rest with
      | b2 :: r2 =>
          if 128 ≤ b2 ∧ b2 < 192 then some ((b - 192) * 64 + (b2 - 128), r2) else none
      | [] => none
    else if b < 240 then
      match rest with
      | b2 :: b3 :: r3 =>
          if (128 ≤ b2 ∧ b2 < 192) ∧ (128 ≤ b3 ∧ b3 < 192) then
            some ((b - 224) * 4096 + (b2 - 128) * 64 + (b3 - 128), r3)
          else none
      | _ => none
    else if b < 248 then
      match rest with
      | b2 :: b3 :: b4 :: r4 =>
          if (128 ≤ b2 ∧ b2 < 192) ∧ (128 ≤ b3 ∧ b3 < 192) ∧ (128 ≤ b4 ∧ b4 < 192) then
            some ((b - 240) * 262144 + (b2 - 128) * 4096 + (b3 - 128) * 64 + (b4 - 128), r4)
          else none
      | _ => none
    else none

/-- Decode a whole byte list into code points, with fuel for termination. -/
def utf8DecodeAux : Nat → List Nat → Option (List Nat)
  | _, [] => some []
  | 0, _ :: _ => none
  | fuel + 1, b :: bs =>
    match utf8DecodeOne (b :: bs) with
    | none => none
    | some (c, rest) =>
      match utf8DecodeAux fuel rest with
      | none => none
      | some tl => some (c :: tl)

/-- Decode UTF-8 bytes back to a string (`new TextDecoder().decode(bytes)`
on well-formed input; `none` on malformed input). -/
def textDecode (bs : List Nat) : Option String :=
  (utf8DecodeAux bs.length bs).map (fun cps => String.mk (cps.map Char.ofNat))

theorem utf8EncodeNat_length_pos (n : Nat) : 0 < (utf8EncodeNat n).length := by
  unfold utf8EncodeNat
  split_ifs <;> simp

theorem utf8EncodeNat_lt_256 (n : Nat) (hn : n < 1114112) :
    ∀ b ∈ utf8EncodeNat n, b < 256 := by
  intro b hb
  unfold utf8EncodeNat at hb
  split_ifs at hb with h1 h2 h3 <;>
    simp only [List.mem_cons, List.not_mem_nil, or_false] at hb <;> omega

theorem utf8DecodeOne_utf8EncodeNat (n : Nat) (hn : n < 1114112) (tl : List Nat) :
    utf8DecodeOne (utf8EncodeNat n ++ tl) = some (n, tl) := by
  unfold utf8EncodeNat
  split_ifs with h1 h2 h3
  · simp only [List.cons_append, List.nil_append, utf8DecodeOne, if_pos h1]
  · have : ¬ (192 + n / 64 < 128) := by omega
    simp only [List.cons_append, List.nil_append, utf8DecodeOne]
    rw [if_neg (by omega), if_neg (by omega), if_pos (by omega),
      if_pos (by constructor <;> omega)]
    simp only [Option.some.injEq, Prod.mk.injEq, and_true]
    omega
  · simp only [List.cons_append, List.nil_append, utf8DecodeOne]
    rw [if_neg (by omega), if_neg (by omega), if_neg (by omega), if_pos (by omega),
      if_pos (by refine ⟨⟨?_, ?_⟩, ?_, ?_⟩ <;> omega)]
    simp only [Option.some.injEq, Prod.mk.injEq, and_true]
    omega
  · simp only [List.cons_append, List.nil_append, utf8DecodeOne]
    rw [if_neg (by omega), if_neg (by omega), if_neg (by omega), if_neg (by omega),
      if_pos (by omega), if_pos (by refine ⟨⟨?_, ?_⟩, ⟨?_, ?_⟩, ?_, ?_⟩ <;> omega)]
    simp only [Option.some.injEq, Prod.mk.injEq, and_true]
    omega

theorem utf8DecodeAux_encode (cps : List Nat) (h : ∀ c ∈ cps, c < 1114112) :
    ∀ fuel, (cps.map utf8EncodeNat).flatten.length ≤ fuel →
      utf8DecodeAux fuel ((cps.map utf8EncodeNat).flatten) = some cps := by
  induction cps with
  | nil => intro fuel _; simp [utf8DecodeAux]
  | cons c cs ih =>
    intro fuel hf
    have hc : c < 1114112 := h c (by simp)
    have hlen : 0 < (utf8EncodeNat c).length := utf8EncodeNat_length_pos c
    simp only [List.map_cons, List.flatten_cons, List.length_append] at hf ⊢
    obtain ⟨x, xs, hx⟩ : ∃ x xs, utf8EncodeNat c = x :: xs :=
      List.exists_cons_of_ne_nil (List.length_pos.mp hlen)
    rw [hx] at hf
    simp only [List.length_cons] at hf
    obtain ⟨f, rfl⟩ : ∃ f, fuel = f + 1 := ⟨fuel - 1, by omega⟩
    rw [hx, List.cons_append]
    have hone : utf8DecodeOne (x :: (xs ++ (cs.map utf8EncodeNat).flatten)) =
        some (c, (cs.map utf8EncodeNat).flatten) := by
      rw [← List.cons_append, ← hx]
      exact utf8DecodeOne_utf8EncodeNat c hc _
    have hrec : utf8DecodeAux f ((cs.map utf8EncodeNat).flatten) = some cs := by
      apply ih (fun z hz => h z (by simp [hz]))
      omega
    simp only [utf8DecodeAux, hone, hrec]

/-- The UTF-8 codec round-trips on strings. -/
theorem textDecode_textEncode (s : String) : textDecode (textEncode s) = some s := by
  have hvalid : ∀ c ∈ s.data.map Char.toNat, c < 1114112 := by
    intro n hn
    simp only [List.mem_map] at hn
    obtain ⟨c, _, rfl⟩ := hn
    have := c.valid
    rcases this with h | ⟨_, h⟩
    · exact Nat.lt_trans h (by norm_num)
    · exact h
  have key := utf8DecodeAux_encode (s.data.map Char.toNat) hvalid
      ((s.data.map Char.toNat).map utf8EncodeNat).flatten.length le_rfl
  have henc : textEncode s = ((s.data.map Char.toNat).map utf8EncodeNat).flatten := by
    rw [textEncode, List.map_map]
    rfl
  rw [textDecode, henc, key]
  simp only [Option.map_some', List.map_map, Option.some.injEq]
  have hmap : s.data.map (Char.ofNat ∘ Char.toNat) = s.data := by
    have h1 : ∀ c ∈ s.data, (Char.ofNat ∘ Char.toNat) c = id c := by
      intro c _
      simp [Char.ofNat_toNat]
    rw [List.map_congr_left h1, List.map_id]
  rw [hmap]

/-! ## Ideal AES-GCM (model of `crypto.subtle.encrypt` / `crypto.subtle.decrypt`)

AES-GCM with a 128-bit tag is perfectly correct and (idealizing the tag)
authentic: decryption under the key and IV used for encryption returns the
plaintext; decryption under anything else fails. The model realizes this by
letting the sealed bytes determine key, IV and plaintext, which is the
standard ideal-cipher functional model: `subtleDecrypt` succeeds exactly when
the supplied key and IV match the sealing ones. -/

/-- Ideal AES-GCM sealing (`crypto.subtle.encrypt({name: AES-GCM, iv}, key, data)`).
The result stands for ciphertext-plus-tag. -/
def subtleEncrypt (key iv pt : List Nat) : List Nat := key ++ iv ++ pt

/-- Ideal AES-GCM opening (`crypto.subtle.decrypt`): succeeds exactly when
`key` and `iv` match the ones the payload was sealed under. -/
def subtleDecrypt (key iv ct : List Nat) : Option (List Nat) :=
  if ct.take (key.length + iv.length) = key ++ iv then
    some (ct.drop (key.length + iv.length))
  else none

theorem subtleDecrypt_subtleEncrypt (key iv pt : List Nat) :
    subtleDecrypt key iv (subtleEncrypt key iv pt) = some pt := by
  have htake : (key ++ iv ++ pt).take (key.length + iv.length) = key ++ iv := by
    rw [← List.length_append]
    exact List.take_left (key ++ iv) pt
  have hdrop : (key ++ iv ++ pt).drop (key.length + iv.length) = pt := by
    rw [← List.length_append]
    exact List.drop_left (key ++ iv) pt
  rw [subtleDecrypt, subtleEncrypt, if_pos htake, hdrop]

/-! ## `encryption.js`: message encryption (`MessageCipher`) -/

/-- Wire shape returned by `encryptMessage` (the `authTag` is folded into
`ciphertext`, as in the source). -/
structure MessageEnvelope where
  ciphertext : String
  iv : String
  timestamp : Int
deriving DecidableEq, Repr

/-- `encryptMessage(message, sessionKey)` from `encryption.js`. The 12-byte
random IV drawn by `crypto.getRandomValues` and the `Date.now()` reading are
passed explicitly. -/
def encryptMessage (message : String) (sessionKey : List Nat) (iv : List Nat)
    (now : Int) : MessageEnvelope :=
  let messageData := textEncode message
  let encrypted := subtleEncrypt sessionKey iv messageData
  { ciphertext := b64Encode encrypted, iv := b64Encode iv, timestamp := now }

/-- `decryptMessage(ciphertext, iv, sessionKey)` from `encryption.js`;
`none` models the thrown `Failed to decrypt message` error. -/
def decryptMessage (ciphertext iv : String) (sessionKey : List Nat) :
    Option String := do
  let ciphertextBuffer ← b64Decode ciphertext
  let ivBuffer ← b64Decode iv
  let decrypted ← subtleDecrypt sessionKey ivBuffer ciphertextBuffer
  textDecode decrypted

/-- UTF-8 bytes are bytes. -/
theorem textEncode_lt_256 (s : String) : ∀ b ∈ textEncode s, b < 256 := by
  intro b hb
  rw [textEncode] at hb
  simp only [List.mem_flatten, List.mem_map] at hb
  obtain ⟨l, ⟨c, hc, rfl⟩, hbl⟩ := hb
  have hcv : c.toNat < 1114112 := by
    rcases c.valid with h | ⟨_, h⟩
    · exact Nat.lt_trans h (by norm_num)
    · exact h
  exact utf8EncodeNat_lt_256 _ hcv b hbl

/-- C7: for every plaintext string `m` and every AES-GCM session key `k`,
applying `decryptMessage` to the `ciphertext` and `iv` of the envelope
produced by `encryptMessage m k`, with the same key `k`, returns `m`. -/
theorem decryptMessage_encryptMessage (m : String) (sessionKey iv : List Nat)
    (now : Int) (hkey : ∀ b ∈ sessionKey, b < 256) (hiv : ∀ b ∈ iv, b < 256) :
    decryptMessage (encryptMessage m sessionKey iv now).ciphertext
      (encryptMessage m sessionKey iv now).iv sessionKey = some m := by
  have hct : ∀ b ∈ subtleEncrypt sessionKey iv (textEncode m), b < 256 := by
    intro b hb
    rw [subtleEncrypt] at hb
    rcases List.mem_append.mp hb with h | h
    · rcases List.mem_append.mp h with h' | h'
      · exact hkey b h'
      · exact hiv b h'
    · exact textEncode_lt_256 m b h
  simp only [encryptMessage, decryptMessage]
  rw [b64Decode_b64Encode _ hct, b64Decode_b64Encode iv hiv]
  simp [subtleDecrypt_subtleEncrypt, textDecode_textEncode]

/-- Witness: a concrete message, key and IV round-trip. -/
theorem decryptMessage_encryptMessage_witness :
    decryptMessage (encryptMessage "Hi!" [1, 2] [3, 4] 0).ciphertext
      (encryptMessage "Hi!" [1, 2] [3, 4] 0).iv [1, 2] = some "Hi!" :=
  decryptMessage_encryptMessage "Hi!" [1, 2] [3, 4] 0 (by decide) (by decide)

/-! ## `encryption.js`: chunked file decryption (`decryptFile`) -/

/-- One encrypted file chunk `{data, iv, index}` as produced by
`encryptFile`. -/
structure FileChunk where
  data : String
  iv : String
  index : Int
deriving DecidableEq, Repr

/-- The loop body of `decryptFile`: base64-decode the chunk's data and IV and
open it under the session key. -/
def decryptChunk (sessionKey : List Nat) (chunk : FileChunk) : Option (List Nat) := do
  let ciphertextBuffer ← b64Decode chunk.data
  let ivBuffer ← b64Decode chunk.iv
  subtleDecrypt sessionKey ivBuffer ciphertextBuffer

/-- Insert a chunk into an index-sorted list, before the first chunk of
strictly larger index (matching the stable `Array.prototype.sort` with
comparator `(a, b) => a.index - b.index`). -/
def insertByIndex (c : FileChunk) : List FileChunk → List FileChunk
  | [] => [c]
  | d :: ds => if c.index ≤ d.index then c :: d :: ds else d :: insertByIndex c ds

/-- `[...encryptedChunks].sort((a, b) => a.index - b.index)`. -/
def sortByIndex : List FileChunk → List FileChunk
  | [] => []
  | c :: cs => insertByIndex c (sortByIndex cs)

/-- `decryptFile(encryptedChunks, sessionKey)` from `encryption.js`: sort the
chunks by `index`, decrypt each, and concatenate the results; any single
chunk failure makes the whole call fail (`none`). Note the signature: the
function receives only the chunk list and the key, so `totalChunks` and
`totalSize` of the file envelope are never consulted. -/
def decryptFile (encryptedChunks : List FileChunk) (sessionKey : List Nat) :
    Option (List Nat) :=
  ((sortByIndex encryptedChunks).mapM (decryptChunk sessionKey)).map List.flatten

theorem mem_insertByIndex (c x : FileChunk) :
    ∀ l, x ∈ insertByIndex c l ↔ x = c ∨ x ∈ l := by
  intro l
  induction l with
  | nil => simp [insertByIndex]
  | cons d ds ih =>
    rw [insertByIndex]
    split_ifs
    · simp [List.mem_cons]
    · simp only [List.mem_cons, ih]
      tauto

theorem mem_sortByIndex (x : FileChunk) : ∀ l, x ∈ sortByIndex l ↔ x ∈ l := by
  intro l
  induction l with
  | nil => simp [sortByIndex]
  | cons c cs ih =>
    rw [sortByIndex, mem_insertByIndex]
    simp only [List.mem_cons, ih]

theorem sorted_insertByIndex (c : FileChunk) (l : List FileChunk)
    (h : l.Sorted (fun a b => a.index ≤ b.index)) :
    (insertByIndex c l).Sorted (fun a b => a.index ≤ b.index) := by
  induction l with
  | nil => simp [insertByIndex]
  | cons d ds ih =>
    rw [List.sorted_cons] at h
    rw [insertByIndex]
    split_ifs with hcd
    · rw [List.sorted_cons]
      refine ⟨?_, List.sorted_cons.mpr h⟩
      intro b hb
      rcases List.mem_cons.mp hb with rfl | hb
      · exact hcd
      · exact le_trans hcd (h.1 b hb)
    · rw [List.sorted_cons]
      refine ⟨?_, ih h.2⟩
      intro b hb
      rcases (mem_insertByIndex c b ds).mp hb with rfl | hb
      · omega
      · exact h.1 b hb

theorem sortByIndex_sorted :
    ∀ l, (sortByIndex l).Sorted (fun a b => a.index ≤ b.index) := by
  intro l
  induction l with
  | nil => simp [sortByIndex]
  | cons c cs ih => exact sorted_insertByIndex c _ ih

theorem perm_insertByIndex (c : FileChunk) :
    ∀ l, (insertByIndex c l).Perm (c :: l) := by
  intro l
  induction l with
  | nil => simp [insertByIndex]
  | cons d ds ih =>
    rw [insertByIndex]
    split_ifs
    · exact List.Perm.refl _
    · exact (ih.cons d).trans (List.Perm.swap c d ds)

theorem sortByIndex_perm : ∀ l, (sortByIndex l).Perm l := by
  intro l
  induction l with
  | nil => simp [sortByIndex]
  | cons c cs ih => exact (perm_insertByIndex c _).trans (ih.cons c)

/-- `Option.mapM` over a list where every element succeeds returns the list
of results. -/
theorem mapM_eq_some_of_isSome {α β : Type} (f : α → Option β) (d : β) :
    ∀ l : List α, (∀ a ∈ l, (f a).isSome) →
      l.mapM f = some (l.map fun a => (f a).getD d) := by
  intro l
  induction l with
  | nil => intro _; rfl
  | cons a as ih =>
    intro h
    obtain ⟨b, hb⟩ := Option.isSome_iff_exists.mp (h a (by simp))
    rw [List.mapM_cons, hb, ih (fun x hx => h x (by simp [hx]))]
    simp [hb]

/-- C10: `decryptFile` sorts the supplied chunk list by `index` and returns
the concatenation of the decrypted chunks in that order; it receives neither
`totalChunks` nor `totalSize`, and any chunk list in which every chunk
authenticates under the session key produces an output — missing, duplicated
or non-contiguous indices included, since no contiguity hypothesis is
needed. -/
theorem decryptFile_sorted_concat (chunks : List FileChunk) (sessionKey : List Nat)
    (h : ∀ c ∈ chunks, (decryptChunk sessionKey c).isSome) :
    decryptFile chunks sessionKey =
      some (((sortByIndex chunks).map fun c => (decryptChunk sessionKey c).getD []).flatten)
    ∧ (sortByIndex chunks).Sorted (fun a b => a.index ≤ b.index)
    ∧ (sortByIndex chunks).Perm chunks := by
  refine ⟨?_, sortByIndex_sorted chunks, sortByIndex_perm chunks⟩
  rw [decryptFile, mapM_eq_some_of_isSome (decryptChunk sessionKey) [] _
    (fun c hc => h c ((mem_sortByIndex c chunks).mp hc))]
  rfl

/-- Witness: a chunk list with duplicated index 2 and a gap (no index 1)
still decrypts, in sorted order. -/
theorem decryptFile_sorted_concat_witness :
    decryptFile
        [⟨b64Encode [1, 9, 5], b64Encode [9], 2⟩,
         ⟨b64Encode [1, 8, 7], b64Encode [8], 0⟩,
         ⟨b64Encode [1, 7, 6], b64Encode [7], 2⟩] [1] =
      some (((sortByIndex
        [⟨b64Encode [1, 9, 5], b64Encode [9], 2⟩,
         ⟨b64Encode [1, 8, 7], b64Encode [8], 0⟩,
         ⟨b64Encode [1, 7, 6], b64Encode [7], 2⟩]).map
          fun c => (decryptChunk [1] c).getD []).flatten)
    ∧ (sortByIndex
        [⟨b64Encode [1, 9, 5], b64Encode [9], 2⟩,
         ⟨b64Encode [1, 8, 7], b64Encode [8], 0⟩,
         ⟨b64Encode [1, 7, 6], b64Encode [7], 2⟩]).Sorted
          (fun a b => a.index ≤ b.index)
    ∧ (sortByIndex
        [⟨b64Encode [1, 9, 5], b64Encode [9], 2⟩,
         ⟨b64Encode [1, 8, 7], b64Encode [8], 0⟩,
         ⟨b64Encode [1, 7, 6], b64Encode [7], 2⟩]).Perm
        [⟨b64Encode [1, 9, 5], b64Encode [9], 2⟩,
         ⟨b64Encode [1, 8, 7], b64Encode [8], 0⟩,
         ⟨b64Encode [1, 7, 6], b64Encode [7], 2⟩] :=
  decryptFile_sorted_concat _ [1] (by decide)

/-! ## `keyExchange.js`: the authenticated ECDH handshake (`HandshakeEngine`)

Ideal models of the external primitives:
* ECDH on P-256 is modelled as exponentiation in a fixed commutative group
  `x ↦ g^x mod m`; all the agreement proofs need is the Diffie-Hellman
  commutation law, which holds in this group.
* ECDSA is modelled as an ideal signature: a signature is the signed payload
  together with the signer's public key, and `verifySignature` succeeds
  exactly on a signature produced over the same payload by the holder of the
  matching private key.
* The signed template string `${publicKeyBase64}:${nonce}:${timestamp}` is
  modelled as the structure `HsPayload` of its three fields (the `:`-joined
  rendering is injective on these fields).
* The SPKI/base64 transport encoding of ECDH public keys
  (`exportPublicKey` / `importPublicKey`) is a bijection and is elided: the
  `ecdhPublicKey` field carries the group element itself.
* `deriveSessionKey`'s PBKDF2 call is modelled as an injective deterministic
  function of the key material and salt, which is all that HKDF-style
  derivation guarantees; the salt construction (base64-decode the two nonces
  and concatenate, first argument first) is translated from the source. -/

/-- `maxAge = 5 * 60 * 1000` in `respondToKeyExchange` / `completeKeyExchange`. -/
def handshakeMaxAge : Int := 5 * 60 * 1000

/-- Modulus of the idealized Diffie-Hellman group. -/
def ecdhModulus : Nat := 1000003

/-- Generator of the idealized Diffie-Hellman group. -/
def ecdhGenerator : Nat := 3

/-- Public key of an ephemeral ECDH secret (ideal model of
`generateECDHKeyPair().publicKey`). -/
def ecdhPublicKeyOf (x : Nat) : Nat := ecdhGenerator ^ x % ecdhModulus

/-- `crypto.subtle.deriveBits({name: ECDH, public: peer}, own, 256)`. -/
def ecdhDeriveBits (ownPrivate : Nat) (peerPublic : Nat) : Nat :=
  peerPublic ^ ownPrivate % ecdhModulus

/-- Diffie-Hellman commutation: both parties derive the same shared secret. -/
theorem ecdhDeriveBits_comm (a b : Nat) :
    ecdhDeriveBits a (ecdhPublicKeyOf b) = ecdhDeriveBits b (ecdhPublicKeyOf a) := by
  unfold ecdhDeriveBits ecdhPublicKeyOf
  conv_lhs => rw [← Nat.pow_mod, ← pow_mul]
  conv_rhs => rw [← Nat.pow_mod, ← pow_mul]
  rw [Nat.mul_comm]

/-- Long-term ECDSA identity private key (ideal model). -/
structure ECDSAPrivKey where
  scalar : Nat
deriving DecidableEq, Repr

/-- Long-term ECDSA identity public key (ideal model). -/
structure ECDSAPubKey where
  scalar : Nat
deriving DecidableEq, Repr

/-- Public half of an identity keypair. -/
def ecdsaPublicOf (k : ECDSAPrivKey) : ECDSAPubKey := ⟨k.scalar⟩

/-- The signed data `${publicKeyBase64}:${nonce}:${timestamp}`. -/
structure HsPayload where
  ecdhPublicKey : Nat
  nonce : String
  timestamp : Int
deriving DecidableEq, Repr

/-- Ideal ECDSA signature: binds a payload to the signer. -/
structure SignatureV where
  payload : HsPayload
  signerPub : ECDSAPubKey
deriving DecidableEq, Repr

/-- `signData(data, privateKey)` from `keyExchange.js` (ideal ECDSA). -/
def signData (payload : HsPayload) (privateKey : ECDSAPrivKey) : SignatureV :=
  ⟨payload, ecdsaPublicOf privateKey⟩

/-- `verifySignature(data, signature, publicKey)` from `keyExchange.js`
(ideal ECDSA: succeeds exactly on the matching payload and key). -/
def verifySignature (payload : HsPayload) (signature : SignatureV)
    (publicKey : ECDSAPubKey) : Bool :=
  decide (signature.payload = payload ∧ signature.signerPub = publicKey)

/-- Wire shape `{ecdhPublicKey, signature, nonce, timestamp}`. -/
structure HandshakeMessage where
  ecdhPublicKey : Nat
  signature : SignatureV
  nonce : String
  timestamp : Int
deriving DecidableEq, Repr

/-- `iterations: 1000` inside `deriveSessionKey`. -/
def hkdfIterations : Nat := 1000

/-- An AES-GCM session key as produced by `deriveSessionKey` (ideal PBKDF2:
the key is determined by, and determines, its inputs). -/
structure DerivedSessionKey where
  sharedSecret : Nat
  salt : List Nat
  iterations : Nat
deriving DecidableEq, Repr

/-- `deriveSessionKey(sharedSecret, nonce1, nonce2)` from `keyExchange.js`:
the salt is `base64ToArrayBuffer(nonce1) ‖ base64ToArrayBuffer(nonce2)`, in
argument order; `none` models `atob` throwing on a malformed nonce. -/
def deriveSessionKey (sharedSecret : Nat) (nonce1 nonce2 : String) :
    Option DerivedSessionKey :=
  match b64Decode nonce1, b64Decode nonce2 with
  | some s1, some s2 => some ⟨sharedSecret, s1 ++ s2, hkdfIterations⟩
  | _, _ => none

/-- Random inputs consumed by `initiateKeyExchange`: the fresh ephemeral
secret, the fresh nonce, and the `Date.now()` reading. -/
structure InitiateEnv where
  eph : Nat
  nonce : String
  now : Int
deriving Repr

/-- `initiateKeyExchange(userPrivateKey)` from `keyExchange.js`: generate an
ephemeral keypair and nonce, timestamp, and sign
`publicKey:nonce:timestamp` with the identity key. Returns the ephemeral
private scalar and the outbound message. -/
def initiateKeyExchange (env : InitiateEnv) (userPrivateKey : ECDSAPrivKey) :
    Nat × HandshakeMessage :=
  let publicKeyBase64 := ecdhPublicKeyOf env.eph
  let dataToSign : HsPayload := ⟨publicKeyBase64, env.nonce, env.now⟩
  (env.eph,
    { ecdhPublicKey := publicKeyBase64
      signature := signData dataToSign userPrivateKey
      nonce := env.nonce
      timestamp := env.now })

/-- Thrown errors of `respondToKeyExchange` / `completeKeyExchange`. -/
inductive KeyExchangeError
  | expired
  | invalidSignature
  | deriveFailed
deriving DecidableEq, Repr

/-- Random inputs consumed by `respondToKeyExchange`: the `Date.now()` read
for the freshness check, the fresh ephemeral secret and nonce, and the
`Date.now()` read for the outbound timestamp. -/
structure RespondEnv where
  now : Int
  eph : Nat
  nonce : String
  tsOut : Int
deriving Repr

/-- `respondToKeyExchange(initiatorMessage, initiatorUserPublicKey,
responderPrivateKey)` from `keyExchange.js`. Note the freshness check is
only `now - timestamp > maxAge`; there is no future-timestamp branch. -/
def respondToKeyExchange (env : RespondEnv) (initiatorMessage : HandshakeMessage)
    (initiatorUserPublicKey : ECDSAPubKey) (responderPrivateKey : ECDSAPrivKey) :
    Except KeyExchangeError (DerivedSessionKey × Nat × HandshakeMessage) :=
  if env.now - initiatorMessage.timestamp > handshakeMaxAge then
    .error .expired
  else
    let dataToVerify : HsPayload :=
      ⟨initiatorMessage.ecdhPublicKey, initiatorMessage.nonce, initiatorMessage.timestamp⟩
    if verifySignature dataToVerify initiatorMessage.signature initiatorUserPublicKey = false then
      .error .invalidSignature
    else
      let publicKeyBase64 := ecdhPublicKeyOf env.eph
      let dataToSign : HsPayload := ⟨publicKeyBase64, env.nonce, env.tsOut⟩
      let signature := signData dataToSign responderPrivateKey
      let sharedSecret := ecdhDeriveBits env.eph initiatorMessage.ecdhPublicKey
      match deriveSessionKey sharedSecret initiatorMessage.nonce env.nonce with
      | none => .error .deriveFailed
      | some sessionKey =>
          .ok (sessionKey, env.eph,
            { ecdhPublicKey := publicKeyBase64
              signature := signature
              nonce := env.nonce
              timestamp := env.tsOut })

/-- `completeKeyExchange(responderMessage, responderUserPublicKey,
initiatorECDHPrivateKey, initiatorNonce)` from `keyExchange.js`. Same
freshness check (age only), then signature check, then shared-secret and
session-key derivation with the initiator's nonce first. -/
def completeKeyExchange (now : Int) (responderMessage : HandshakeMessage)
    (responderUserPublicKey : ECDSAPubKey) (initiatorECDHPrivateKey : Nat)
    (initiatorNonce : String) : Except KeyExchangeError DerivedSessionKey :=
  if now - responderMessage.timestamp > handshakeMaxAge then
    .error .expired
  else
    let dataToVerify : HsPayload :=
      ⟨responderMessage.ecdhPublicKey, responderMessage.nonce, responderMessage.timestamp⟩
    if verifySignature dataToVerify responderMessage.signature responderUserPublicKey = false then
      .error .invalidSignature
    else
      let sharedSecret := ecdhDeriveBits initiatorECDHPrivateKey responderMessage.ecdhPublicKey
      match deriveSessionKey sharedSecret initiatorNonce responderMessage.nonce with
      | none => .error .deriveFailed
      | some sessionKey => .ok sessionKey

theorem deriveSessionKey_eq {sharedSecret : Nat} {nonce1 nonce2 : String}
    {k : DerivedSessionKey} (h : deriveSessionKey sharedSecret nonce1 nonce2 = some k) :
    ∃ s1 s2, b64Decode nonce1 = some s1 ∧ b64Decode nonce2 = some s2 ∧
      k = ⟨sharedSecret, s1 ++ s2, hkdfIterations⟩ := by
  rw [deriveSessionKey] at h
  cases h1 : b64Decode nonce1 with
  | none => rw [h1] at h; simp at h
  | some s1 =>
    cases h2 : b64Decode nonce2 with
    | none => rw [h1, h2] at h; simp at h
    | some s2 =>
      rw [h1, h2] at h
      simp only [Option.some.injEq] at h
      exact ⟨s1, s2, rfl, rfl, h.symm⟩

/-- C1: whenever the responder accepts the initiator's message and the
initiator accepts the responder's reply, the two derived session keys are
identical: both sides compute the same ECDH shared secret and salt the
derivation with the initiator's nonce first and the responder's nonce
second. -/
theorem handshake_session_key_agreement
    (envI : InitiateEnv) (envR : RespondEnv) (idA idB : ECDSAPrivKey) (nowI : Int)
    (kR kI : DerivedSessionKey) (ephR : Nat) (mB : HandshakeMessage)
    (hR : respondToKeyExchange envR (initiateKeyExchange envI idA).2
        (ecdsaPublicOf idA) idB = .ok (kR, ephR, mB))
    (hI : completeKeyExchange nowI mB (ecdsaPublicOf idB)
        (initiateKeyExchange envI idA).1 envI.nonce = .ok kI) :
    kI = kR ∧
    ∃ sA sB, b64Decode envI.nonce = some sA ∧ b64Decode envR.nonce = some sB ∧
      kR.salt = sA ++ sB ∧
      kR.sharedSecret = ecdhDeriveBits envR.eph (ecdhPublicKeyOf envI.eph) := by
  simp only [initiateKeyExchange, respondToKeyExchange] at hR
  split at hR
  · simp at hR
  · split at hR
    · simp at hR
    · split at hR
      next heq => simp at hR
      next sk heq =>
        simp only [Except.ok.injEq, Prod.mk.injEq] at hR
        obtain ⟨hk, _, hmB⟩ := hR
        obtain ⟨sA, sB, hsA, hsB, hkval⟩ := deriveSessionKey_eq heq
        subst hk
        subst hmB
        simp only [completeKeyExchange, initiateKeyExchange] at hI
        split at hI
        · simp at hI
        · split at hI
          · simp at hI
          · split at hI
            next heq2 => simp at hI
            next sk2 heq2 =>
              simp only [Except.ok.injEq] at hI
              obtain ⟨sA2, sB2, hsA2, hsB2, hkval2⟩ := deriveSessionKey_eq heq2
              subst hI
              have e1 : sA = sA2 := Option.some.inj (hsA.symm.trans hsA2)
              have e2 : sB = sB2 := Option.some.inj (hsB.symm.trans hsB2)
              subst e1
              subst e2
              refine ⟨?_, sA, sB, hsA, hsB, by rw [hkval], by rw [hkval]⟩
              rw [hkval, hkval2, ecdhDeriveBits_comm]

/-- Witness: a concrete full handshake in which both sides accept and derive
the same key. -/
theorem handshake_session_key_agreement_witness :
    (⟨729, [0, 0, 0, 4, 16, 65], 1000⟩ : DerivedSessionKey) =
        ⟨729, [0, 0, 0, 4, 16, 65], 1000⟩ ∧
    ∃ sA sB, b64Decode "AAAA" = some sA ∧ b64Decode "BBBB" = some sB ∧
      ([0, 0, 0, 4, 16, 65] : List Nat) = sA ++ sB ∧
      (729 : Nat) = ecdhDeriveBits 3 (ecdhPublicKeyOf 2) :=
  handshake_session_key_agreement ⟨2, "AAAA", 0⟩ ⟨0, 3, "BBBB", 0⟩ ⟨5⟩ ⟨7⟩ 0
    ⟨729, [0, 0, 0, 4, 16, 65], 1000⟩ ⟨729, [0, 0, 0, 4, 16, 65], 1000⟩ 3
    { ecdhPublicKey := 27
      signature := ⟨⟨27, "BBBB", 0⟩, ⟨7⟩⟩
      nonce := "BBBB"
      timestamp := 0 }
    rfl rfl

/-- C2 counterexample: a handshake message whose timestamp lies 10^15 ms in
the future of `now = 0` — beyond any clock-skew allowance — is accepted by
`respondToKeyExchange`, and a responder message equally far in the future is
accepted by `completeKeyExchange`, because the only freshness check either
function performs is `now - timestamp > maxAge`, which a future timestamp
can never trip. The claimed `FutureTimestamp` rejection does not exist in
`keyExchange.js`. -/
theorem handshake_accepts_future_timestamp :
    (respondToKeyExchange ⟨0, 3, "BBBB", 0⟩
        (initiateKeyExchange ⟨2, "AAAA", 1000000000000000⟩ ⟨5⟩).2
        (ecdsaPublicOf ⟨5⟩) ⟨7⟩).toOption.isSome = true
    ∧ (completeKeyExchange 0
        { ecdhPublicKey := 27
          signature := ⟨⟨27, "BBBB", 1000000000000000⟩, ⟨7⟩⟩
          nonce := "BBBB"
          timestamp := 1000000000000000 }
        (ecdsaPublicOf ⟨7⟩) 2 "AAAA").toOption.isSome = true :=
  ⟨rfl, rfl⟩

/-- C2 amended: `respondToKeyExchange` and `completeKeyExchange` reject an
inbound message older than `maxAge` with the expiry error, before signature
verification and hence regardless of whether the signature would verify (the
message and its signature are universally quantified here); neither function
checks for future timestamps, so a timestamp arbitrarily far in the future
passes the freshness check (see the counterexample). -/
theorem handshake_expiry_rejection
    (envR : RespondEnv) (msg : HandshakeMessage) (pkA : ECDSAPubKey)
    (skB : ECDSAPrivKey) (now : Int) (pkB : ECDSAPubKey) (eph : Nat) (n : String)
    (hold : envR.now - msg.timestamp > handshakeMaxAge)
    (hold2 : now - msg.timestamp > handshakeMaxAge) :
    respondToKeyExchange envR msg pkA skB = .error .expired ∧
    completeKeyExchange now msg pkB eph n = .error .expired := by
  constructor
  · rw [respondToKeyExchange, if_pos hold]
  · rw [completeKeyExchange, if_pos hold2]

/-- Witness: a stale message with an invalid signature (signed by scalar 99,
claimed key 5) is still rejected as expired, not as an invalid signature. -/
theorem handshake_expiry_rejection_witness :
    respondToKeyExchange ⟨1000000000, 3, "BBBB", 0⟩
        { ecdhPublicKey := 9
          signature := ⟨⟨9, "AAAA", 0⟩, ⟨99⟩⟩
          nonce := "AAAA"
          timestamp := 0 }
        (ecdsaPublicOf ⟨5⟩) ⟨7⟩ = .error .expired ∧
    completeKeyExchange 1000000000
        { ecdhPublicKey := 9
          signature := ⟨⟨9, "AAAA", 0⟩, ⟨99⟩⟩
          nonce := "AAAA"
          timestamp := 0 }
        (ecdsaPublicOf ⟨5⟩) 2 "AAAA" = .error .expired :=
  handshake_expiry_rejection ⟨1000000000, 3, "BBBB", 0⟩ _ _ ⟨7⟩ 1000000000 _ 2 "AAAA"
    (by decide) (by decide)

/-! ## `replayProtection.js`: the `ReplayGuard`

The embedded function is the `part_000` copy of `validateMessageMetadata`
(the one with the `isHistorical` option); the `frontend/src/crypto` copy is
its `isHistorical = false` instance — it performs the same checks, in the
same order, with the same stores, and has no historical branch.

The `ReplayProtectionDB` IndexedDB database is embedded as the two object
stores (association lists on their `keyPath` `id`) plus four failure flags
modelling `request.onerror` outcomes per access kind, so the source's error
handling (`onerror` handlers, `catch` blocks, rethrows) is part of the
model. -/

/-- `maxAge = 5 * 60 * 1000` in `validateMessageMetadata`. -/
def replayMaxAge : Int := 5 * 60 * 1000

/-- The `60000` clock-skew allowance in the future-timestamp check. -/
def replayClockSkew : Int := 60000

/-- `60 * 60 * 1000`: nonce records expire one hour after recording. -/
def nonceRetention : Int := 60 * 60 * 1000

/-- `{nonce, timestamp, sequenceNumber}` as built by
`generateMessageMetadata`. -/
structure MessageMetadata where
  nonce : String
  timestamp : Int
  sequenceNumber : Int
deriving DecidableEq, Repr

/-- A record of the `nonces` object store (key path `id`). -/
structure NonceRecord where
  id : String
  nonce : String
  conversationId : String
  timestamp : Int
  expiresAt : Int
deriving DecidableEq, Repr

/-- A record of the `sequences` object store (key path `id`). -/
structure SeqRecord where
  id : String
  nextSequence : Int
  lastUpdated : Int
deriving DecidableEq, Repr

/-- The `ReplayProtectionDB` database plus per-access failure flags. -/
structure ReplayDB where
  nonces : List NonceRecord
  seqs : List SeqRecord
  failNonceGet : Bool
  failSeqGet : Bool
  failNoncePut : Bool
  failSeqPut : Bool
deriving DecidableEq, Repr

/-- The store key `` `${conversationId}:${nonce}` ``. -/
def nonceKey (conversationId nonce : String) : String :=
  conversationId ++ ":" ++ nonce

/-- `hasSeenNonce(nonce, conversationId)`: presence of the key in the nonce
store; a lookup error resolves to `false` (both the request's `onerror`
handler and the outer `catch` return `false`). No expiry field is consulted. -/
def hasSeenNonce (db : ReplayDB) (nonce conversationId : String) : Bool :=
  if db.failNonceGet then false
  else (db.nonces.find? (fun r => decide (r.id = nonceKey conversationId nonce))).isSome

/-- `store.put(record)` upsert on key path `id`. -/
def putNonceRecord (l : List NonceRecord) (r : NonceRecord) : List NonceRecord :=
  l.filter (fun x => !(decide (x.id = r.id))) ++ [r]

/-- `store.put(record)` upsert on key path `id`. -/
def putSeqRecord (l : List SeqRecord) (r : SeqRecord) : List SeqRecord :=
  l.filter (fun x => !(decide (x.id = r.id))) ++ [r]

/-- `cleanExpiredNonces()`: delete every record with `expiresAt < now`; its
own failures are swallowed. -/
def cleanExpiredNonces (l : List NonceRecord) (now : Int) : List NonceRecord :=
  l.filter (fun r => !(decide (r.expiresAt < now)))

/-- `recordNonce(nonce, conversationId)`: upsert the record with
`expiresAt = Date.now() + 60*60*1000`, then run the cleanup; a put error is
rethrown to the caller (`Except.error`). -/
def recordNonce (db : ReplayDB) (nonce conversationId : String) (now : Int) :
    Except Unit ReplayDB :=
  if db.failNoncePut then .error ()
  else .ok { db with
    nonces := cleanExpiredNonces
      (putNonceRecord db.nonces
        ⟨nonceKey conversationId nonce, nonce, conversationId, now, now + nonceRetention⟩)
      now }

/-- `getNextSequenceNumber(conversationId)`: the stored `nextSequence`, or
`0` when the record is absent or the lookup fails. -/
def getNextSequenceNumber (db : ReplayDB) (conversationId : String) : Int :=
  if db.failSeqGet then 0
  else
    match db.seqs.find? (fun r => decide (r.id = conversationId)) with
    | some data => data.nextSequence
    | none => 0

/-- `updateSequenceNumber(conversationId, sequenceNumber)`: upsert
`nextSequence = sequenceNumber + 1`; a put error is rethrown. -/
def updateSequenceNumber (db : ReplayDB) (conversationId : String)
    (sequenceNumber : Int) (now : Int) : Except Unit ReplayDB :=
  if db.failSeqPut then .error ()
  else .ok { db with seqs := putSeqRecord db.seqs ⟨conversationId, sequenceNumber + 1, now⟩ }

/-- Result of `validateMessageMetadata` (`{valid: true}` or
`{valid: false, reason}`). -/
inductive ValidationResult
  | valid
  | invalid (reason : String)
deriving DecidableEq, Repr

/-- `validateMessageMetadata(metadata, conversationId, {isHistorical})`. The
call's `Date.now()` reading is `now`. Checks in source order: freshness
(skipped when historical), duplicate nonce (rejection skipped when
historical), then the historical branch (record if new, bump the sequence if
not lower than expected, always valid) or the live branch (old-sequence
check, then record nonce and update sequence). An exception from a store
write surfaces as `VALIDATION_ERROR` via the outer `catch`. -/
def validateMessageMetadata (db : ReplayDB) (metadata : MessageMetadata)
    (conversationId : String) (isHistorical : Bool) (now : Int) :
    ValidationResult × ReplayDB :=
  if ¬isHistorical ∧ now - metadata.timestamp > replayMaxAge then
    (.invalid "MESSAGE_EXPIRED", db)
  else if ¬isHistorical ∧ metadata.timestamp > now + replayClockSkew then
    (.invalid "FUTURE_TIMESTAMP", db)
  else
    let nonceUsed := hasSeenNonce db metadata.nonce conversationId
    if nonceUsed ∧ ¬isHistorical then
      (.invalid "DUPLICATE_NONCE", db)
    else
      let expectedSequence := getNextSequenceNumber db conversationId
      if isHistorical then
        match
          (if ¬nonceUsed then recordNonce db metadata.nonce conversationId now
           else .ok db) with
        | .error _ => (.invalid "VALIDATION_ERROR", db)
        | .ok db1 =>
          if metadata.sequenceNumber ≥ expectedSequence then
            match updateSequenceNumber db1 conversationId metadata.sequenceNumber now with
            | .error _ => (.invalid "VALIDATION_ERROR", db1)
            | .ok db2 => (.valid, db2)
          else (.valid, db1)
      else
        if metadata.sequenceNumber < expectedSequence then
          (.invalid "OLD_SEQUENCE", db)
        else
          match recordNonce db metadata.nonce conversationId now with
          | .error _ => (.invalid "VALIDATION_ERROR", db)
          | .ok db1 =>
            match updateSequenceNumber db1 conversationId metadata.sequenceNumber now with
            | .error _ => (.invalid "VALIDATION_ERROR", db1)
            | .ok db2 => (.valid, db2)

theorem find?_eq_none_prepend {α : Type} {p : α → Bool} :
    ∀ (l l2 : List α), (∀ x ∈ l, p x = false) → (l ++ l2).find? p = l2.find? p := by
  intro l l2 h
  induction l with
  | nil => rfl
  | cons a as ih =>
    rw [List.cons_append, List.find?_cons_of_neg]
    · exact ih (fun x hx => h x (by simp [hx]))
    · simp [h a (by simp)]

theorem find?_isSome_of_mem {α : Type} {p : α → Bool} {x : α} :
    ∀ {l : List α}, x ∈ l → p x = true → (l.find? p).isSome = true := by
  intro l hx hp
  induction l with
  | nil => simp at hx
  | cons a as ih =>
    by_cases hpa : p a = true
    · rw [List.find?_cons_of_pos _ hpa]
      rfl
    · rw [List.find?_cons_of_neg _ (by simpa using hpa)]
      rcases List.mem_cons.mp hx with rfl | hx'
      · exact absurd hp hpa
      · exact ih hx'

/-- After `recordNonce` succeeds, the nonce is present in the store: the put
entry survives the expiry cleanup since its expiry lies one hour in the
future. -/
theorem hasSeenNonce_after_record (db' : ReplayDB) (L : List NonceRecord)
    (n conv : String) (now : Int) (hg : db'.failNonceGet = false)
    (hn : db'.nonces = cleanExpiredNonces
      (putNonceRecord L ⟨nonceKey conv n, n, conv, now, now + nonceRetention⟩) now) :
    hasSeenNonce db' n conv = true := by
  rw [hasSeenNonce, if_neg (by simp [hg]), hn]
  apply find?_isSome_of_mem
    (x := ⟨nonceKey conv n, n, conv, now, now + nonceRetention⟩)
  · rw [cleanExpiredNonces]
    apply List.mem_filter.mpr
    refine ⟨?_, ?_⟩
    · rw [putNonceRecord]
      exact List.mem_append_right _ (by simp)
    · simp only [Bool.not_eq_true', decide_eq_false_iff_not, not_lt, nonceRetention]
      omega
  · simp

/-- Closed form of `validateMessageMetadata` in live mode when the store
writes succeed. -/
theorem validate_live_eq (db : ReplayDB) (md : MessageMetadata) (conv : String)
    (now : Int) (hpN : db.failNoncePut = false) (hpS : db.failSeqPut = false) :
    validateMessageMetadata db md conv false now =
      if now - md.timestamp > replayMaxAge then (.invalid "MESSAGE_EXPIRED", db)
      else if md.timestamp > now + replayClockSkew then (.invalid "FUTURE_TIMESTAMP", db)
      else if hasSeenNonce db md.nonce conv then (.invalid "DUPLICATE_NONCE", db)
      else if md.sequenceNumber < getNextSequenceNumber db conv then
        (.invalid "OLD_SEQUENCE", db)
      else
        (.valid,
          { db with
            nonces := cleanExpiredNonces
              (putNonceRecord db.nonces
                ⟨nonceKey conv md.nonce, md.nonce, conv, now, now + nonceRetention⟩) now,
            seqs := putSeqRecord db.seqs ⟨conv, md.sequenceNumber + 1, now⟩ }) := by
  by_cases h1 : now - md.timestamp > replayMaxAge
  · simp [validateMessageMetadata, h1]
  by_cases h2 : md.timestamp > now + replayClockSkew
  · simp [validateMessageMetadata, h1, h2]
  cases hseen : hasSeenNonce db md.nonce conv with
  | true => simp [validateMessageMetadata, h1, h2, hseen]
  | false =>
    by_cases hseq : md.sequenceNumber < getNextSequenceNumber db conv
    · simp [validateMessageMetadata, h1, h2, hseen, hseq]
    · simp [validateMessageMetadata, recordNonce, updateSequenceNumber, hpN, hpS,
        h1, h2, hseen, hseq]

/-- Closed form of `validateMessageMetadata` in historical mode when the
store writes succeed: it always returns valid, records the nonce only when
it was absent, and bumps the sequence exactly when the inbound sequence
number is at least the stored one — independently of the duplicate check. -/
theorem validate_historical_eq (db : ReplayDB) (md : MessageMetadata) (conv : String)
    (now : Int) (hpN : db.failNoncePut = false) (hpS : db.failSeqPut = false) :
    validateMessageMetadata db md conv true now =
      (.valid,
        if hasSeenNonce db md.nonce conv then
          if md.sequenceNumber ≥ getNextSequenceNumber db conv then
            { db with seqs := putSeqRecord db.seqs ⟨conv, md.sequenceNumber + 1, now⟩ }
          else db
        else
          if md.sequenceNumber ≥ getNextSequenceNumber db conv then
            { db with
              nonces := cleanExpiredNonces
                (putNonceRecord db.nonces
                  ⟨nonceKey conv md.nonce, md.nonce, conv, now, now + nonceRetention⟩) now,
              seqs := putSeqRecord db.seqs ⟨conv, md.sequenceNumber + 1, now⟩ }
          else
            { db with
              nonces := cleanExpiredNonces
                (putNonceRecord db.nonces
                  ⟨nonceKey conv md.nonce, md.nonce, conv, now, now + nonceRetention⟩) now }) := by
  cases hseen : hasSeenNonce db md.nonce conv with
  | true =>
    by_cases hge : md.sequenceNumber ≥ getNextSequenceNumber db conv
    · simp [validateMessageMetadata, updateSequenceNumber, hpS, hseen, hge]
    · simp [validateMessageMetadata, hseen, hge]
  | false =>
    by_cases hge : md.sequenceNumber ≥ getNextSequenceNumber db conv
    · simp [validateMessageMetadata, recordNonce, updateSequenceNumber, hpN, hpS, hseen, hge]
    · simp [validateMessageMetadata, recordNonce, hpN, hseen, hge]

theorem find?_putSeqRecord (l : List SeqRecord) (conv : String) (s now : Int) :
    (putSeqRecord l ⟨conv, s, now⟩).find? (fun x => decide (x.id = conv)) =
      some ⟨conv, s, now⟩ := by
  rw [putSeqRecord, find?_eq_none_prepend]
  · rw [List.find?_cons_of_pos _ (by simp)]
  · intro x hx
    rw [List.mem_filter] at hx
    simpa using hx.2

theorem getNext_after_putSeq (db' : ReplayDB) (L : List SeqRecord) (conv : String)
    (s now : Int) (hg : db'.failSeqGet = false)
    (hs : db'.seqs = putSeqRecord L ⟨conv, s, now⟩) :
    getNextSequenceNumber db' conv = s := by
  rw [getNextSequenceNumber, if_neg (by simp [hg]), hs, find?_putSeqRecord]

theorem getNext_set_seqs (db : ReplayDB) (N : List NonceRecord) (conv : String)
    (s now : Int) (hg : db.failSeqGet = false) :
    getNextSequenceNumber
      { db with nonces := N, seqs := putSeqRecord db.seqs ⟨conv, s, now⟩ } conv = s :=
  getNext_after_putSeq _ db.seqs conv s now hg rfl

theorem getNext_set_seqs2 (db : ReplayDB) (conv : String) (s now : Int)
    (hg : db.failSeqGet = false) :
    getNextSequenceNumber
      { db with seqs := putSeqRecord db.seqs ⟨conv, s, now⟩ } conv = s :=
  getNext_after_putSeq _ db.seqs conv s now hg rfl

/-- In historical mode the result is valid, or `VALIDATION_ERROR` from a
failing store write — never a replay rejection (any flags). -/
theorem validate_historical_fst_cases (db : ReplayDB) (md : MessageMetadata)
    (conv : String) (now : Int) :
    (validateMessageMetadata db md conv true now).1 = .valid ∨
    (validateMessageMetadata db md conv true now).1 = .invalid "VALIDATION_ERROR" := by
  simp only [validateMessageMetadata]
  rw [if_neg (fun hx => hx.1 (by trivial)), if_neg (fun hx => hx.1 (by trivial)),
    if_neg (fun hx => hx.2 (by trivial)), if_pos (by trivial)]
  split
  · right; rfl
  · split
    · split
      · right; rfl
      · left; rfl
    · left; rfl

/-- The exhaustive result cases of a live-mode call, with the duplicate
rejection tied to the nonce lookup (any flags). -/
theorem validate_live_fst_cases (db : ReplayDB) (md : MessageMetadata)
    (conv : String) (now : Int) :
    (validateMessageMetadata db md conv false now).1 = .valid
    ∨ (validateMessageMetadata db md conv false now).1 = .invalid "MESSAGE_EXPIRED"
    ∨ (validateMessageMetadata db md conv false now).1 = .invalid "FUTURE_TIMESTAMP"
    ∨ ((validateMessageMetadata db md conv false now).1 = .invalid "DUPLICATE_NONCE"
        ∧ hasSeenNonce db md.nonce conv = true)
    ∨ (validateMessageMetadata db md conv false now).1 = .invalid "OLD_SEQUENCE"
    ∨ (validateMessageMetadata db md conv false now).1 = .invalid "VALIDATION_ERROR" := by
  simp only [validateMessageMetadata]
  split
  · right; left; rfl
  · split
    · right; right; left; rfl
    · split
      next h => exact Or.inr (Or.inr (Or.inr (Or.inl ⟨rfl, h.1⟩)))
      · rw [if_neg (fun hx : (false : Bool) = true => by cases hx)]
        split
        · right; right; right; right; left; rfl
        · split
          · right; right; right; right; right; rfl
          · split
            · right; right; right; right; right; rfl
            · left; rfl

/-- A `VALIDATION_ERROR` result can only come from a failing store write
(the guard's lookups fail open and never raise). -/
theorem validation_error_flags (db : ReplayDB) (md : MessageMetadata)
    (conv : String) (hist : Bool) (now : Int)
    (h : (validateMessageMetadata db md conv hist now).1 = .invalid "VALIDATION_ERROR") :
    db.failNoncePut = true ∨ db.failSeqPut = true := by
  cases hfN : db.failNoncePut with
  | true => exact Or.inl rfl
  | false =>
    cases hfS : db.failSeqPut with
    | true => exact Or.inr rfl
    | false =>
      exfalso
      cases hist
      · rw [validate_live_eq db md conv now hfN hfS] at h
        split_ifs at h <;> simp at h
      · rw [validate_historical_eq db md conv now hfN hfS] at h
        simp at h

/-- C3: in live-validation mode `validateMessageMetadata` rejects with a
classified reason: a message older than `maxAge = 5` minutes is rejected
`MESSAGE_EXPIRED` regardless of nonce and sequence state; a second
submission of an already-recorded nonce is rejected `DUPLICATE_NONCE`
whenever freshness passes, regardless of the sequence number; a
`sequenceNumber` below the stored `nextExpectedSequence` is rejected
`OLD_SEQUENCE` whenever freshness and nonce uniqueness pass. The checks
apply in the order freshness, nonce uniqueness, sequence: each rejection
needs only the earlier checks to pass, never the later ones. -/
theorem live_validation_rejections (db : ReplayDB) (md : MessageMetadata)
    (conv : String) (now : Int) :
    (now - md.timestamp > replayMaxAge →
      validateMessageMetadata db md conv false now = (.invalid "MESSAGE_EXPIRED", db))
    ∧ (now - md.timestamp ≤ replayMaxAge → md.timestamp ≤ now + replayClockSkew →
        hasSeenNonce db md.nonce conv = true →
        validateMessageMetadata db md conv false now = (.invalid "DUPLICATE_NONCE", db))
    ∧ (now - md.timestamp ≤ replayMaxAge → md.timestamp ≤ now + replayClockSkew →
        hasSeenNonce db md.nonce conv = false →
        md.sequenceNumber < getNextSequenceNumber db conv →
        validateMessageMetadata db md conv false now = (.invalid "OLD_SEQUENCE", db)) := by
  refine ⟨?_, ?_, ?_⟩
  · intro h1
    simp [validateMessageMetadata, h1]
  · intro h1 h2 hseen
    simp [validateMessageMetadata, not_lt.mpr h1, not_lt.mpr h2, hseen]
  · intro h1 h2 hseen hseq
    simp [validateMessageMetadata, not_lt.mpr h1, not_lt.mpr h2, hseen, hseq]

/-- Witness: an expired message on an empty store, a fresh duplicate with an
in-order sequence, and a fresh new-nonce message with an old sequence — each
rejected with its own reason. -/
theorem live_validation_rejections_witness :
    validateMessageMetadata ⟨[], [], false, false, false, false⟩
        ⟨"N", 0, 0⟩ "c" false 1000000000
      = (.invalid "MESSAGE_EXPIRED", ⟨[], [], false, false, false, false⟩)
    ∧ validateMessageMetadata
        ⟨[⟨"c:N", "N", "c", 0, 3600000⟩], [⟨"c", 0, 0⟩], false, false, false, false⟩
        ⟨"N", 0, 5⟩ "c" false 0
      = (.invalid "DUPLICATE_NONCE",
          ⟨[⟨"c:N", "N", "c", 0, 3600000⟩], [⟨"c", 0, 0⟩], false, false, false, false⟩)
    ∧ validateMessageMetadata ⟨[], [⟨"c", 5, 0⟩], false, false, false, false⟩
        ⟨"N", 0, 3⟩ "c" false 0
      = (.invalid "OLD_SEQUENCE", ⟨[], [⟨"c", 5, 0⟩], false, false, false, false⟩) :=
  ⟨(live_validation_rejections _ _ _ _).1 (by decide),
   (live_validation_rejections _ _ _ _).2.1 (by decide) (by decide) (by decide),
   (live_validation_rejections _ _ _ _).2.2 (by decide) (by decide) (by decide) (by decide)⟩

/-- C9: when the store lookups fail, `hasSeenNonce` resolves to `false` and
`getNextSequenceNumber` returns `0`, so both the duplicate-nonce and
old-sequence checks pass and a fresh-timestamped replayed message is
accepted: the guard fails open on storage lookup errors. A
`VALIDATION_ERROR` result can only arise from an exception inside
`validateMessageMetadata`'s own body, i.e. from a failing store write. -/
theorem replay_guard_fails_open (db : ReplayDB) (md : MessageMetadata)
    (conv : String) (now : Int)
    (hgN : db.failNonceGet = true) (hgS : db.failSeqGet = true)
    (hpN : db.failNoncePut = false) (hpS : db.failSeqPut = false)
    (h1 : now - md.timestamp ≤ replayMaxAge) (h2 : md.timestamp ≤ now + replayClockSkew)
    (h3 : 0 ≤ md.sequenceNumber) :
    hasSeenNonce db md.nonce conv = false
    ∧ getNextSequenceNumber db conv = 0
    ∧ (validateMessageMetadata db md conv false now).1 = .valid
    ∧ (∀ (db2 : ReplayDB) (md2 : MessageMetadata) (conv2 : String) (hist2 : Bool)
        (now2 : Int),
        (validateMessageMetadata db2 md2 conv2 hist2 now2).1 = .invalid "VALIDATION_ERROR" →
        db2.failNoncePut = true ∨ db2.failSeqPut = true) := by
  have hseen : hasSeenNonce db md.nonce conv = false := by simp [hasSeenNonce, hgN]
  have hnext : getNextSequenceNumber db conv = 0 := by simp [getNextSequenceNumber, hgS]
  refine ⟨hseen, hnext, ?_,
    fun db2 md2 conv2 hist2 now2 h => validation_error_flags db2 md2 conv2 hist2 now2 h⟩
  rw [validate_live_eq db md conv now hpN hpS, if_neg (not_lt.mpr h1),
    if_neg (not_lt.mpr h2), if_neg (by simp [hseen]), if_neg (by rw [hnext]; omega)]

/-- Witness: the nonce `"N"` is recorded and the stored next sequence is 99,
but with lookups failing the replay (`sequence 5`, recorded nonce) is
accepted. -/
theorem replay_guard_fails_open_witness :
    hasSeenNonce
        ⟨[⟨"c:N", "N", "c", 0, 3600000⟩], [⟨"c", 99, 0⟩], true, true, false, false⟩
        "N" "c" = false
    ∧ getNextSequenceNumber
        ⟨[⟨"c:N", "N", "c", 0, 3600000⟩], [⟨"c", 99, 0⟩], true, true, false, false⟩
        "c" = 0
    ∧ (validateMessageMetadata
        ⟨[⟨"c:N", "N", "c", 0, 3600000⟩], [⟨"c", 99, 0⟩], true, true, false, false⟩
        ⟨"N", 0, 5⟩ "c" false 0).1 = .valid
    ∧ (∀ (db2 : ReplayDB) (md2 : MessageMetadata) (conv2 : String) (hist2 : Bool)
        (now2 : Int),
        (validateMessageMetadata db2 md2 conv2 hist2 now2).1 = .invalid "VALIDATION_ERROR" →
        db2.failNoncePut = true ∨ db2.failSeqPut = true) :=
  replay_guard_fails_open
    ⟨[⟨"c:N", "N", "c", 0, 3600000⟩], [⟨"c", 99, 0⟩], true, true, false, false⟩
    ⟨"N", 0, 5⟩ "c" 0 rfl rfl rfl rfl (by decide) (by decide) (by decide)

/-- C5 counterexample: (a) a nonce record whose `expiresAt = -3600000` has
long passed at `now = 0` is still present in the store (the cleanup only
runs inside `recordNonce`) and the fresh resubmission of that nonce is
rejected `DUPLICATE_NONCE` — contradicting "a recorded nonce whose expiry
has passed is not rejected as a duplicate"; (b) in historical mode a
recorded, unexpired nonce is not rejected at all — contradicting "the
rejection applies in every validation mode". -/
theorem duplicate_nonce_expiry_counterexample :
    (validateMessageMetadata
        ⟨[⟨"c:N", "N", "c", -7200000, -3600000⟩], [], false, false, false, false⟩
        ⟨"N", 0, 0⟩ "c" false 0).1 = .invalid "DUPLICATE_NONCE"
    ∧ ((-3600000 : Int) < 0)
    ∧ (validateMessageMetadata
        ⟨[⟨"c:N", "N", "c", 0, 3600000⟩], [], false, false, false, false⟩
        ⟨"N", 0, 0⟩ "c" true 0).1 = .valid := by
  decide

/-- C5 amended: in live mode, with freshness passing, the `DUPLICATE_NONCE`
rejection fires exactly when the nonce's key is present in the store —
`hasSeenNonce` is a pure presence check that never consults the record's
expiry, so an expired-but-not-yet-purged record still rejects (records are
purged only by the cleanup run inside `recordNonce`); and in historical mode
a duplicate nonce is never rejected. -/
theorem duplicate_nonce_rejection (db : ReplayDB) (md : MessageMetadata)
    (conv : String) (now : Int)
    (h1 : now - md.timestamp ≤ replayMaxAge) (h2 : md.timestamp ≤ now + replayClockSkew) :
    ((validateMessageMetadata db md conv false now).1 = .invalid "DUPLICATE_NONCE" ↔
      hasSeenNonce db md.nonce conv = true)
    ∧ (validateMessageMetadata db md conv true now).1 ≠ .invalid "DUPLICATE_NONCE" := by
  constructor
  · constructor
    · intro hres
      rcases validate_live_fst_cases db md conv now with h | h | h | ⟨_, hs⟩ | h | h
      · exact absurd (hres.symm.trans h) (by decide)
      · exact absurd (hres.symm.trans h) (by decide)
      · exact absurd (hres.symm.trans h) (by decide)
      · exact hs
      · exact absurd (hres.symm.trans h) (by decide)
      · exact absurd (hres.symm.trans h) (by decide)
    · intro hseen
      simp [validateMessageMetadata, not_lt.mpr h1, not_lt.mpr h2, hseen]
  · rcases validate_historical_fst_cases db md conv now with h | h <;> rw [h] <;> decide

/-- Witness: a present-but-expired record rejects a fresh resubmission in
live mode; the same duplicate is accepted in historical mode. -/
theorem duplicate_nonce_rejection_witness :
    ((validateMessageMetadata
        ⟨[⟨"c:N", "N", "c", -7200000, -3600000⟩], [], false, false, false, false⟩
        ⟨"N", 0, 0⟩ "c" false 0).1 = .invalid "DUPLICATE_NONCE" ↔
      hasSeenNonce ⟨[⟨"c:N", "N", "c", -7200000, -3600000⟩], [], false, false, false, false⟩
        "N" "c" = true)
    ∧ (validateMessageMetadata
        ⟨[⟨"c:N", "N", "c", -7200000, -3600000⟩], [], false, false, false, false⟩
        ⟨"N", 0, 0⟩ "c" true 0).1 ≠ .invalid "DUPLICATE_NONCE" :=
  duplicate_nonce_rejection
    ⟨[⟨"c:N", "N", "c", -7200000, -3600000⟩], [], false, false, false, false⟩
    ⟨"N", 0, 0⟩ "c" 0 (by decide) (by decide)

/-- C6 counterexample: historical mode, nonce `"N"` already recorded
(a duplicate), stored `nextExpectedSequence = 5`, inbound sequence 7: the
stored sequence is advanced to 8 even though the nonce is a duplicate — so
the advance is not conditioned on the nonce being new, contradicting
"in Historical mode, exactly when the nonce is not a duplicate". -/
theorem sequence_advance_counterexample :
    hasSeenNonce
        ⟨[⟨"c:N", "N", "c", 0, 3600000⟩], [⟨"c", 5, 0⟩], false, false, false, false⟩
        "N" "c" = true
    ∧ (validateMessageMetadata
        ⟨[⟨"c:N", "N", "c", 0, 3600000⟩], [⟨"c", 5, 0⟩], false, false, false, false⟩
        ⟨"N", 0, 7⟩ "c" true 0).1 = .valid
    ∧ getNextSequenceNumber
        (validateMessageMetadata
          ⟨[⟨"c:N", "N", "c", 0, 3600000⟩], [⟨"c", 5, 0⟩], false, false, false, false⟩
          ⟨"N", 0, 7⟩ "c" true 0).2 "c" = 8
    ∧ (8 : Int) ≠ 5 := by
  decide

/-- C6 amended: on every accepting live-mode call, and in historical mode on
every call — regardless of whether the nonce is a duplicate, since the
advance is guarded only by the sequence comparison — the stored
`nextExpectedSequence` becomes `max(previous, sequenceNumber + 1)`; and no
call, in either mode, ever decreases it. -/
theorem sequence_advance (db : ReplayDB) (md : MessageMetadata) (conv : String)
    (mode : Bool) (now : Int) (hgS : db.failSeqGet = false)
    (hpN : db.failNoncePut = false) (hpS : db.failSeqPut = false) :
    getNextSequenceNumber (validateMessageMetadata db md conv mode now).2 conv ≥
      getNextSequenceNumber db conv
    ∧ ((validateMessageMetadata db md conv false now).1 = .valid →
        getNextSequenceNumber (validateMessageMetadata db md conv false now).2 conv =
          max (getNextSequenceNumber db conv) (md.sequenceNumber + 1))
    ∧ getNextSequenceNumber (validateMessageMetadata db md conv true now).2 conv =
        max (getNextSequenceNumber db conv) (md.sequenceNumber + 1) := by
  have hist_eq : getNextSequenceNumber (validateMessageMetadata db md conv true now).2 conv =
      max (getNextSequenceNumber db conv) (md.sequenceNumber + 1) := by
    rw [validate_historical_eq db md conv now hpN hpS]
    dsimp only
    cases hseen : hasSeenNonce db md.nonce conv with
    | true =>
      rw [if_pos rfl]
      by_cases hge : md.sequenceNumber ≥ getNextSequenceNumber db conv
      · rw [if_pos hge, getNext_set_seqs2 db conv _ now hgS, max_eq_right (by omega)]
      · rw [if_neg hge, max_eq_left (by omega)]
    | false =>
      rw [if_neg (by simp)]
      by_cases hge : md.sequenceNumber ≥ getNextSequenceNumber db conv
      · rw [if_pos hge, getNext_set_seqs db _ conv _ now hgS, max_eq_right (by omega)]
      · rw [if_neg hge, max_eq_left (by omega)]
        rfl
  have live_eq : (validateMessageMetadata db md conv false now).1 = .valid →
      getNextSequenceNumber (validateMessageMetadata db md conv false now).2 conv =
        max (getNextSequenceNumber db conv) (md.sequenceNumber + 1) := by
    intro hv
    rw [validate_live_eq db md conv now hpN hpS] at hv ⊢
    split_ifs at hv ⊢ with h1 h2 h3 h4
    rw [max_eq_right (by omega)]
    exact getNext_set_seqs db
      (cleanExpiredNonces
        (putNonceRecord db.nonces
          ⟨nonceKey conv md.nonce, md.nonce, conv, now, now + nonceRetention⟩) now)
      conv (md.sequenceNumber + 1) now hgS
  refine ⟨?_, live_eq, hist_eq⟩
  cases mode
  · rw [validate_live_eq db md conv now hpN hpS]
    split_ifs with h1 h2 h3 h4
    · exact le_refl _
    · exact le_refl _
    · exact le_refl _
    · exact le_refl _
    · have h5 := getNext_set_seqs db
        (cleanExpiredNonces
          (putNonceRecord db.nonces
            ⟨nonceKey conv md.nonce, md.nonce, conv, now, now + nonceRetention⟩) now)
        conv (md.sequenceNumber + 1) now hgS
      exact le_trans (by omega) (le_of_eq h5.symm)
  · rw [hist_eq]
    exact le_max_left _ _

/-- Witness: an accepting live call advances the stored sequence from 5 to
8 = max 5 (7 + 1); a historical call does the same. -/
theorem sequence_advance_witness :
    getNextSequenceNumber
        (validateMessageMetadata ⟨[], [⟨"c", 5, 0⟩], false, false, false, false⟩
          ⟨"N", 0, 7⟩ "c" false 0).2 "c" ≥
      getNextSequenceNumber ⟨[], [⟨"c", 5, 0⟩], false, false, false, false⟩ "c"
    ∧ ((validateMessageMetadata ⟨[], [⟨"c", 5, 0⟩], false, false, false, false⟩
          ⟨"N", 0, 7⟩ "c" false 0).1 = .valid →
        getNextSequenceNumber
            (validateMessageMetadata ⟨[], [⟨"c", 5, 0⟩], false, false, false, false⟩
              ⟨"N", 0, 7⟩ "c" false 0).2 "c" =
          max (getNextSequenceNumber ⟨[], [⟨"c", 5, 0⟩], false, false, false, false⟩ "c")
            ((7 : Int) + 1))
    ∧ getNextSequenceNumber
          (validateMessageMetadata ⟨[], [⟨"c", 5, 0⟩], false, false, false, false⟩
            ⟨"N", 0, 7⟩ "c" true 0).2 "c" =
        max (getNextSequenceNumber ⟨[], [⟨"c", 5, 0⟩], false, false, false, false⟩ "c")
          ((7 : Int) + 1) :=
  sequence_advance ⟨[], [⟨"c", 5, 0⟩], false, false, false, false⟩ ⟨"N", 0, 7⟩ "c"
    false 0 rfl rfl rfl

theorem nonces_if_seqs (c : Prop) [Decidable c] (db0 : ReplayDB) (S : List SeqRecord) :
    (if c then { db0 with seqs := S } else db0).nonces = db0.nonces := by
  split <;> rfl

/-- C4: a historical-mode call never rejects — in particular not on sequence
or timestamp grounds — and nonce bookkeeping is updated exactly once: any
historical call whose nonce is already recorded (for instance by the
envelope's original acceptance, or by a first historical submission) leaves
the nonce store untouched, while a call whose nonce is absent records it. -/
theorem historical_replay_nonce_once (db : ReplayDB) (md : MessageMetadata)
    (conv : String) (now : Int) (hgN : db.failNonceGet = false)
    (hpN : db.failNoncePut = false) (hpS : db.failSeqPut = false) :
    (validateMessageMetadata db md conv true now).1 = .valid
    ∧ (∀ (db' : ReplayDB) (now' : Int), hasSeenNonce db' md.nonce conv = true →
        db'.failNoncePut = false → db'.failSeqPut = false →
        (validateMessageMetadata db' md conv true now').2.nonces = db'.nonces)
    ∧ (hasSeenNonce db md.nonce conv = false →
        hasSeenNonce (validateMessageMetadata db md conv true now).2 md.nonce conv = true) := by
  refine ⟨?_, ?_, ?_⟩
  · rw [validate_historical_eq db md conv now hpN hpS]
  · intro db' now' hseen' hpN' hpS'
    rw [validate_historical_eq db' md conv now' hpN' hpS', if_pos hseen']
    exact nonces_if_seqs _ _ _
  · intro hseen
    rw [validate_historical_eq db md conv now hpN hpS, if_neg (by simp [hseen])]
    by_cases hge : md.sequenceNumber ≥ getNextSequenceNumber db conv
    · rw [if_pos hge]
      exact hasSeenNonce_after_record _ db.nonces md.nonce conv now hgN rfl
    · rw [if_neg hge]
      exact hasSeenNonce_after_record _ db.nonces md.nonce conv now hgN rfl

/-- Witness: a first historical submission of a new nonce is accepted and
records it; a second submission on the resulting store leaves the nonce
store unchanged even though the envelope is stale (`timestamp 0` at
`now = 10^9`) and its sequence is old (stored next sequence 5). -/
theorem historical_replay_nonce_once_witness :
    (validateMessageMetadata ⟨[], [⟨"c", 5, 0⟩], false, false, false, false⟩
        ⟨"N", 0, 1⟩ "c" true 1000000000).1 = .valid
    ∧ (∀ (db' : ReplayDB) (now' : Int), hasSeenNonce db' "N" "c" = true →
        db'.failNoncePut = false → db'.failSeqPut = false →
        (validateMessageMetadata db' ⟨"N", 0, 1⟩ "c" true now').2.nonces = db'.nonces)
    ∧ (hasSeenNonce ⟨[], [⟨"c", 5, 0⟩], false, false, false, false⟩ "N" "c" = false →
        hasSeenNonce
          (validateMessageMetadata ⟨[], [⟨"c", 5, 0⟩], false, false, false, false⟩
            ⟨"N", 0, 1⟩ "c" true 1000000000).2 "N" "c" = true) :=
  historical_replay_nonce_once ⟨[], [⟨"c", 5, 0⟩], false, false, false, false⟩
    ⟨"N", 0, 1⟩ "c" 1000000000 rfl rfl rfl

/-! ## `keyManagement.js`: identity-key wrapping (`IdentityKeyManager`) -/

/-- `iterations: 100000` inside `deriveKeyFromPassword`. -/
def pbkdf2Iterations : Nat := 100000

/-- Ideal PBKDF2-SHA256 (`crypto.subtle.deriveKey`): a deterministic
injective function of the password bytes, the salt and the iteration count,
standing for the derived AES-GCM wrapping key. -/
def pbkdf2 (passwordBytes : List Nat) (salt : List Nat) (iterations : Nat) : List Nat :=
  passwordBytes ++ salt ++ [iterations]

/-- `deriveKeyFromPassword(password, salt)` from `keyManagement.js`: PBKDF2
over the UTF-8 password bytes with the hard-coded iteration count. -/
def deriveKeyFromPassword (password : String) (salt : List Nat) : List Nat :=
  pbkdf2 (textEncode password) salt pbkdf2Iterations

/-- The record `storePrivateKey` puts into the `keys` store — the
`EncryptedKeyBlob` `{ciphertext, salt, iv}` plus its key and timestamp. -/
structure EncryptedKeyBlob where
  id : String
  encryptedKey : String
  salt : String
  iv : String
  timestamp : Int
deriving DecidableEq, Repr

/-- `storePrivateKey(privateKey, password, userId)` from `keyManagement.js`:
export the private key (pkcs8, already done by the caller here), draw a
fresh 16-byte salt and then a fresh 12-byte IV from `crypto.getRandomValues`
(modelled as consuming the explicit per-call RNG stream), derive the
wrapping key from the password and salt, seal the exported key under
AES-GCM, and store everything base64-encoded. -/
def storePrivateKey (exportedKey : List Nat) (password : String) (userId : String)
    (rng : List Nat) (now : Int) : EncryptedKeyBlob :=
  let salt := rng.take 16
  let iv := (rng.drop 16).take 12
  let encryptionKey := deriveKeyFromPassword password salt
  let encryptedKey := subtleEncrypt encryptionKey iv exportedKey
  { id := "privateKey_" ++ userId
    encryptedKey := b64Encode encryptedKey
    salt := b64Encode salt
    iv := b64Encode iv
    timestamp := now }

/-- C8: `storePrivateKey` derives the wrapping key from the passphrase via
PBKDF2 with `100000 ≥ 100000` iterations keyed by a freshly drawn random
16-byte (128-bit) salt, then encrypts the exported private key under AEAD
with a fresh random 12-byte IV drawn next from the same per-call RNG
stream. -/
theorem storePrivateKey_spec (exportedKey : List Nat) (password : String)
    (userId : String) (rng : List Nat) (now : Int)
    (hlen : 28 ≤ rng.length) (hbytes : ∀ b ∈ rng, b < 256) :
    b64Decode (storePrivateKey exportedKey password userId rng now).salt =
        some (rng.take 16)
    ∧ (rng.take 16).length * 8 = 128
    ∧ b64Decode (storePrivateKey exportedKey password userId rng now).iv =
        some ((rng.drop 16).take 12)
    ∧ ((rng.drop 16).take 12).length = 12
    ∧ pbkdf2Iterations ≥ 100000
    ∧ (storePrivateKey exportedKey password userId rng now).encryptedKey =
        b64Encode (subtleEncrypt
          (pbkdf2 (textEncode password) (rng.take 16) pbkdf2Iterations)
          ((rng.drop 16).take 12) exportedKey) := by
  refine ⟨?_, ?_, ?_, ?_, by decide, rfl⟩
  · exact b64Decode_b64Encode _ (fun b hb => hbytes b (List.mem_of_mem_take hb))
  · rw [List.length_take]
    omega
  · exact b64Decode_b64Encode _
      (fun b hb => hbytes b (List.mem_of_mem_drop (List.mem_of_mem_take hb)))
  · rw [List.length_take, List.length_drop]
    omega

/-- Witness: a concrete 28-byte RNG stream yields a 16-byte salt and a fresh
12-byte IV, both recoverable from the stored blob. -/
theorem storePrivateKey_spec_witness :
    b64Decode (storePrivateKey [1, 2, 3] "pw" "u1" (List.range 28) 0).salt =
        some ((List.range 28).take 16)
    ∧ ((List.range 28).take 16).length * 8 = 128
    ∧ b64Decode (storePrivateKey [1, 2, 3] "pw" "u1" (List.range 28) 0).iv =
        some (((List.range 28).drop 16).take 12)
    ∧ (((List.range 28).drop 16).take 12).length = 12
    ∧ pbkdf2Iterations ≥ 100000
    ∧ (storePrivateKey [1, 2, 3] "pw" "u1" (List.range 28) 0).encryptedKey =
        b64Encode (subtleEncrypt
          (pbkdf2 (textEncode "pw") ((List.range 28).take 16) pbkdf2Iterations)
          (((List.range 28).drop 16).take 12) [1, 2, 3]) :=
  storePrivateKey_spec [1, 2, 3] "pw" "u1" (List.range 28) 0 (by decide) (by decide)

end SecureChat
